import Mathlib

set_option maxRecDepth 8000

/-!
A verification development for the OneLuaPro ldoc launcher.

The launcher (ldoc.cpp, in two build variants) resolves its install root,
creates a Lua state, publishes argv as the global table arg, injects a Lua
bridge function setPaths that builds package.path and package.cpath, and then
loads and runs the ldoc.lua payload: from a file on disk in one variant, from
an embedded byte array in the other.  A CMake conversion script turns
ldoc.lua into that embedded byte array, stripping a leading
interpreter-directive line.

String data is modelled as Lean String (a wrapper around List Char), and the
effectful launcher body is modelled as a pure function from an environment of
external outcomes (platform path lookup, Lua state allocation, Lua call and
load results) to the observable output: exit code, lines written to standard
error, and an event trace.
-/

namespace Ldoc

/-! ## Generic helper lemmas about List Char and String -/

theorem strExt {a b : String} (h : a.data = b.data) : a = b := by
  cases a; cases b; exact congrArg String.mk h

theorem strData_append (a b : String) : (a ++ b).data = a.data ++ b.data := by
  cases a; cases b; rfl

theorem strAppendAssoc (a b c : String) : a ++ b ++ c = a ++ (b ++ c) := by
  apply strExt
  simp [strData_append, List.append_assoc]

theorem head_dropWhile_false (p : Char → Bool) :
    ∀ (l : List Char) (a : Char), (l.dropWhile p).head? = some a → p a = false := by
  intro l
  induction l with
  | nil => simp
  | cons b t ih =>
    intro a h
    by_cases hp : p b = true
    · rw [List.dropWhile_cons, if_pos hp] at h
      exact ih a h
    · rw [List.dropWhile_cons, if_neg hp] at h
      simp only [List.head?_cons, Option.some.injEq] at h
      subst h
      simpa using hp

theorem takeWhile_pred (p : Char → Bool) (x : Char) :
    ∀ l : List Char, x ∈ l.takeWhile p → p x = true := by
  intro l
  induction l with
  | nil => simp
  | cons a t ih =>
    intro h
    by_cases hp : p a = true
    · rw [List.takeWhile_cons, if_pos hp] at h
      rcases List.mem_cons.mp h with h1 | h2
      · subst h1; exact hp
      · exact ih h2
    · rw [List.takeWhile_cons, if_neg hp] at h
      cases h

theorem takeWhile_eq_replicate (c : Char) :
    ∀ l : List Char, ∃ k, l.takeWhile (fun x => x == c) = List.replicate k c := by
  intro l
  induction l with
  | nil => exact ⟨0, rfl⟩
  | cons a t ih =>
    rw [List.takeWhile_cons]
    by_cases ha : a = c
    · obtain ⟨k, hk⟩ := ih
      subst ha
      refine ⟨k + 1, ?_⟩
      simp [hk, List.replicate_succ]
    · refine ⟨0, ?_⟩
      have : (a == c) = false := by simpa using ha
      simp [this]

/-! ## The setPaths bridge chunk (ldoc.cpp lines 27 to 41)

The launcher injects a Lua function setPaths(basePath, paths, cpaths).  Its
body removes the maximal trailing run of backslashes from basePath, removes
the maximal leading and trailing runs of backslashes from every template,
joins base and template with one backslash, concatenates each joined list
with the semicolon separator, and assigns the two results to package.path
and package.cpath.  The three gsub calls use anchored patterns, so each one
removes exactly one maximal run at the given end. -/

/-- Models v:gsub with an anchored pattern for one or more leading
    backslashes, replaced by the empty string: drops the maximal leading run
    of backslash characters. -/
def dropLeadingSeps (l : List Char) : List Char := l.dropWhile (fun c => c == '\\')

/-- Models s:gsub with an anchored pattern for one or more trailing
    backslashes, replaced by the empty string: drops the maximal trailing run
    of backslash characters. -/
def dropTrailingSeps (l : List Char) : List Char :=
  (l.reverse.dropWhile (fun c => c == '\\')).reverse

/-- String wrapper of dropTrailingSeps. -/
def gsubTrailingSeps (s : String) : String := ⟨dropTrailingSeps s.data⟩

/-- String wrapper of dropLeadingSeps. -/
def gsubLeadingSeps (s : String) : String := ⟨dropLeadingSeps s.data⟩

/-- Models table.concat(xs, sep) with the semicolon separator, as used for
    package.path and package.cpath in the setPaths chunk. -/
def tableConcat : List String → String
  | [] => ""
  | [x] => x
  | x :: xs => x ++ (";") ++ tableConcat xs

/-- The join expression of the setPaths loop body: cleaned base, one
    backslash, cleaned template. -/
def joinOne (basePath v : String) : String :=
  gsubTrailingSeps basePath ++ ("\\") ++ gsubTrailingSeps (gsubLeadingSeps v)

/-- The injected Lua bridge function setPaths.  The returned pair is the
    value assigned to package.path and the value assigned to package.cpath. -/
def setPaths (basePath : String) (paths cpaths : List String) : String × String :=
  (tableConcat (paths.map (joinOne basePath)),
   tableConcat (cpaths.map (joinOne basePath)))

/-- LUA_VERSION_MAJOR from the Lua headers (external to this repository). -/
def luaVersionMajor : String := "5"

/-- LUA_VERSION_MINOR from the Lua headers (external to this repository). -/
def luaVersionMinor : String := "4"

/-- The fixed template list for package.path (ldoc.cpp lines 43 to 53). -/
def LUA_PATHS : List String :=
  ["bin\\lua\\?.lua",
   "bin\\lua\\?\\init.lua",
   "bin\\?.lua",
   "bin\\?\\init.lua",
   "share\\lua\\" ++ luaVersionMajor ++ (".") ++ luaVersionMinor ++ ("\\?.lua"),
   "share\\lua\\" ++ luaVersionMajor ++ (".") ++ luaVersionMinor ++ ("\\?\\init.lua"),
   ".\\?.lua",
   ".\\?\\init.lua"]

/-- The fixed template list for package.cpath (ldoc.cpp lines 55 to 61). -/
def LUA_CPATHS : List String :=
  ["bin\\?.dll",
   "lib\\lua\\" ++ luaVersionMajor ++ (".") ++ luaVersionMinor ++ ("\\?.dll"),
   "bin\\loadall.dll",
   ".\\?.dll"]

theorem backslashData : ("\\" : String).data = ['\\'] := rfl

theorem joinOne_data (b t : String) :
    (joinOne b t).data
      = dropTrailingSeps b.data ++ '\\' :: dropTrailingSeps (dropLeadingSeps t.data) := by
  show ((gsubTrailingSeps b ++ ("\\")) ++ gsubTrailingSeps (gsubLeadingSeps t)).data = _
  rw [strData_append, strData_append]
  simp [gsubTrailingSeps, gsubLeadingSeps, backslashData, List.append_assoc]

theorem dropLeadingSeps_decomp (l : List Char) :
    ∃ j, l = List.replicate j '\\' ++ dropLeadingSeps l := by
  obtain ⟨k, hk⟩ := takeWhile_eq_replicate '\\' l
  refine ⟨k, ?_⟩
  conv_lhs => rw [← List.takeWhile_append_dropWhile (p := fun c => c == '\\') (l := l)]
  rw [hk]
  rfl

theorem dropLeadingSeps_head (l : List Char) : (dropLeadingSeps l).head? ≠ some '\\' := by
  intro h
  have := head_dropWhile_false _ l '\\' h
  simp at this

theorem dropTrailingSeps_decomp (l : List Char) :
    ∃ k, l = dropTrailingSeps l ++ List.replicate k '\\' := by
  obtain ⟨k, hk⟩ := dropLeadingSeps_decomp l.reverse
  refine ⟨k, ?_⟩
  have h2 := congrArg List.reverse hk
  simpa [dropTrailingSeps, dropLeadingSeps, List.reverse_append, List.reverse_replicate] using h2

theorem dropTrailingSeps_last (l : List Char) : (dropTrailingSeps l).getLast? ≠ some '\\' := by
  intro h
  rw [dropTrailingSeps, List.getLast?_reverse] at h
  have := head_dropWhile_false _ l.reverse '\\' h
  simp at this

theorem dropTrailingSeps_head (l : List Char) (hl : l.head? ≠ some '\\') :
    (dropTrailingSeps l).head? ≠ some '\\' := by
  obtain ⟨k, hk⟩ := dropTrailingSeps_decomp l
  cases h : dropTrailingSeps l with
  | nil => simp
  | cons c cs =>
    rw [h] at hk
    rw [hk] at hl
    simp only [List.cons_append, List.head?_cons] at hl ⊢
    exact hl

/-! ## The shape of the concatenated search-path string

The bridge output is characterised, for every base path and template list,
as the intercalation of the joined entries with the semicolon separator:
the entries appear in input order and one separator stands between each
pair of consecutive entries, so exactly N minus 1 separator occurrences
are inserted beyond those inside the entries themselves. -/

theorem semiData : (";" : String).data = [';'] := rfl

theorem tableConcat_cons_data (x : String) (y : String) (ys : List String) :
    (tableConcat (x :: y :: ys)).data = x.data ++ ';' :: (tableConcat (y :: ys)).data := by
  show ((x ++ (";")) ++ tableConcat (y :: ys)).data = _
  rw [strData_append, strData_append, semiData, List.append_assoc]
  rfl

theorem intercalate_semi_cons_cons (a b : List Char) (t : List (List Char)) :
    List.intercalate [';'] (a :: b :: t) = a ++ ';' :: List.intercalate [';'] (b :: t) := by
  simp [List.intercalate, List.intersperse_cons_cons]

theorem tableConcat_data_intercalate :
    ∀ xs : List String, (tableConcat xs).data = List.intercalate [';'] (xs.map String.data)
  | [] => by simp [tableConcat, List.intercalate]
  | [x] => by simp [tableConcat, List.intercalate]
  | x :: y :: ys => by
    rw [tableConcat_cons_data, tableConcat_data_intercalate (y :: ys)]
    simp only [List.map_cons]
    rw [intercalate_semi_cons_cons]

theorem count_tableConcat_total (x : String) (xs : List String) :
    ((tableConcat (x :: xs)).data.count ';')
      = xs.length + (((x :: xs).map (fun s => (s.data.count ';'))).sum) := by
  induction xs generalizing x with
  | nil => simp [tableConcat]
  | cons y ys ih =>
    rw [tableConcat_cons_data, List.count_append, List.count_cons, ih y]
    simp [List.sum_cons]
    omega

/-- C3: for any install root R and template T, the bridge routine produces
    exactly cleanR, one backslash, cleanT, where cleanR is R with the maximal
    trailing run of separators removed and cleanT is T with the maximal
    leading and trailing runs of separators removed; cleanR does not end with
    a separator and cleanT does not start with one, so the join point holds
    exactly one separator character. -/
theorem setPaths_single_separator_join (R T : String) :
    ∃ cleanR cleanT : List Char,
      (setPaths R [T] []).1.data = cleanR ++ '\\' :: cleanT ∧
      (∃ k, R.data = cleanR ++ List.replicate k '\\') ∧
      cleanR.getLast? ≠ some '\\' ∧
      (∃ j k, T.data = List.replicate j '\\' ++ (cleanT ++ List.replicate k '\\')) ∧
      cleanT.head? ≠ some '\\' ∧
      cleanT.getLast? ≠ some '\\' := by
  refine ⟨dropTrailingSeps R.data, dropTrailingSeps (dropLeadingSeps T.data),
    ?_, dropTrailingSeps_decomp R.data, dropTrailingSeps_last R.data, ?_, ?_, ?_⟩
  · exact joinOne_data R T
  · obtain ⟨j, hj⟩ := dropLeadingSeps_decomp T.data
    obtain ⟨k, hk⟩ := dropTrailingSeps_decomp (dropLeadingSeps T.data)
    exact ⟨j, k, hj.trans (by rw [← hk])⟩
  · exact dropTrailingSeps_head _ (dropLeadingSeps_head T.data)
  · exact dropTrailingSeps_last _

/-- Witness for C3 at a concrete root and template. -/
theorem setPaths_single_separator_join_witness :
    ∃ cleanR cleanT : List Char,
      (setPaths ("C:\\base\\") [("\\tpl\\")] []).1.data = cleanR ++ '\\' :: cleanT ∧
      (∃ k, ("C:\\base\\" : String).data = cleanR ++ List.replicate k '\\') ∧
      cleanR.getLast? ≠ some '\\' ∧
      (∃ j k, ("\\tpl\\" : String).data
        = List.replicate j '\\' ++ (cleanT ++ List.replicate k '\\')) ∧
      cleanT.head? ≠ some '\\' ∧
      cleanT.getLast? ≠ some '\\' :=
  setPaths_single_separator_join ("C:\\base\\") ("\\tpl\\")

/-- C4: for every base path and every nonempty template list, the string
    the bridge assigns to package.path (and likewise to package.cpath) is
    the intercalation of the N joined entries, in exactly the order of the
    input template list, with the single separator character between each
    pair of consecutive entries; consequently its separator count is
    exactly N minus 1 plus the separator occurrences already inside the
    joined entries, that is, exactly N minus 1 separator occurrences are
    inserted between the entries. -/
theorem setPaths_order_and_separator_count (basePath : String) (paths cpaths : List String)
    (hp : paths ≠ []) (hc : cpaths ≠ []) :
    (setPaths basePath paths cpaths).1.data
        = List.intercalate [';'] (paths.map (fun t => (joinOne basePath t).data)) ∧
    ((setPaths basePath paths cpaths).1.data.count ';')
        = (paths.length - 1)
          + ((paths.map (fun t => ((joinOne basePath t).data.count ';'))).sum) ∧
    (setPaths basePath paths cpaths).2.data
        = List.intercalate [';'] (cpaths.map (fun t => (joinOne basePath t).data)) ∧
    ((setPaths basePath paths cpaths).2.data.count ';')
        = (cpaths.length - 1)
          + ((cpaths.map (fun t => ((joinOne basePath t).data.count ';'))).sum) := by
  obtain ⟨x, xs, rfl⟩ := List.exists_cons_of_ne_nil hp
  obtain ⟨y, ys, rfl⟩ := List.exists_cons_of_ne_nil hc
  refine ⟨?_, ?_, ?_, ?_⟩
  · show (tableConcat ((x :: xs).map (joinOne basePath))).data = _
    rw [tableConcat_data_intercalate, List.map_map]
    rfl
  · show ((tableConcat ((x :: xs).map (joinOne basePath))).data.count ';') = _
    rw [List.map_cons, count_tableConcat_total]
    simp [List.map_map, Function.comp_def]
  · show (tableConcat ((y :: ys).map (joinOne basePath))).data = _
    rw [tableConcat_data_intercalate, List.map_map]
    rfl
  · show ((tableConcat ((y :: ys).map (joinOne basePath))).data.count ';') = _
    rw [List.map_cons, count_tableConcat_total]
    simp [List.map_map, Function.comp_def]

/-- Witness for C4: the package.path count part, instantiated with the
    fixed template lists of the launcher and a concrete install root. -/
theorem setPaths_order_and_separator_count_witness :
    ((setPaths ("C:\\Apps\\LDoc") LUA_PATHS LUA_CPATHS).1.data.count ';')
        = (LUA_PATHS.length - 1)
          + ((LUA_PATHS.map
              (fun t => ((joinOne ("C:\\Apps\\LDoc") t).data.count ';'))).sum) :=
  (setPaths_order_and_separator_count ("C:\\Apps\\LDoc") LUA_PATHS LUA_CPATHS
    (by decide) (by decide)).2.1

/-! ## The argument table (ldoc.cpp lines 86 to 92)

The launcher creates a fresh table and, for every index i from 0 to argc
minus 1, stores argv at i under key i with lua_rawseti, then publishes the
table as the global arg.  A Lua table keyed by naturals is modelled as a
function from Nat to Option String, and lua_rawseti as a pointwise update. -/

def luaRawseti (t : Nat → Option String) (i : Nat) (v : String) : Nat → Option String :=
  fun j => if j = i then some v else t j

/-- The loop of ldoc.cpp lines 88 to 91: insert argv at i under key i for
    every i below argc, starting from the empty table. -/
def buildArgTable (argv : List String) : Nat → Option String :=
  (List.enumFrom 0 argv).foldl (fun t p => luaRawseti t p.1 p.2) (fun _ => none)

theorem foldl_rawseti (l : List String) :
    ∀ (n : Nat) (t : Nat → Option String) (j : Nat),
      ((List.enumFrom n l).foldl (fun t p => luaRawseti t p.1 p.2) t) j
        = if n ≤ j ∧ j < n + l.length then l.get? (j - n) else t j := by
  induction l with
  | nil =>
    intro n t j
    simp only [List.enumFrom, List.foldl_nil, List.length_nil, Nat.add_zero]
    rw [if_neg (by omega)]
  | cons a as ih =>
    intro n t j
    show ((List.enumFrom (n + 1) as).foldl (fun t p => luaRawseti t p.1 p.2)
        (luaRawseti t n a)) j = _
    rw [ih (n + 1) (luaRawseti t n a) j]
    simp only [List.length_cons]
    by_cases h1 : n + 1 ≤ j ∧ j < n + 1 + as.length
    · rw [if_pos h1, if_pos (by omega)]
      have hj : j - n = (j - (n + 1)) + 1 := by omega
      rw [hj]
      rfl
    · rw [if_neg h1]
      simp only [luaRawseti]
      by_cases h2 : j = n
      · subst h2
        rw [if_pos rfl, if_pos (by omega)]
        simp
      · rw [if_neg h2, if_neg (by omega)]

/-- C5: the arg table the launcher publishes maps every index i below argc
    to argv at index i, index 0 included; no entry is reordered, filtered
    out or transformed. -/
theorem arg_table_maps_argv (argv : List String) (i : Nat) (h : i < argv.length) :
    buildArgTable argv i = some (argv.get ⟨i, h⟩) := by
  rw [buildArgTable, foldl_rawseti argv 0 _ i, if_pos ⟨Nat.zero_le i, by omega⟩]
  simp [List.get?_eq_get h]

/-- Witness for C5 at argv exe a b: indices 0, 1, 2 map to exe, a, b. -/
theorem arg_table_maps_argv_witness :
    buildArgTable (["exe", "a", "b"]) 0 = some ("exe") ∧
    buildArgTable (["exe", "a", "b"]) 1 = some ("a") ∧
    buildArgTable (["exe", "a", "b"]) 2 = some ("b") :=
  ⟨(arg_table_maps_argv (["exe", "a", "b"]) 0 (by decide)).trans rfl,
   (arg_table_maps_argv (["exe", "a", "b"]) 1 (by decide)).trans rfl,
   (arg_table_maps_argv (["exe", "a", "b"]) 2 (by decide)).trans rfl⟩

/-! ## The launcher body, both build variants

The observable behaviour of main is modelled as a pure function from an
environment of external outcomes to the exit code, the standard error lines
and an event trace.  The environment records: whether the platform resolves
the executable path, whether luaL_newstate succeeds, whether luaL_dostring
compiled and registered the setPaths chunk (a result the source never
checks), the outcome of the lua_pcall invoking setPaths, and the outcomes of
loading and of running the payload chunk. -/

/-- The appName macro of the source. -/
def appName : String := "ldoc.exe"

inductive Ev where
  | createState
  | loadPayload
  | runPayload
  | closeState
deriving DecidableEq

structure Env where
  exePathOk : Bool
  newStateOk : Bool
  registerOk : Bool
  invokeErr : Option String
  loadErr : Option String
  runErr : Option String

structure Out where
  exitCode : Nat
  stderrLines : List String
  events : List Ev

/-- Diagnostic of the GetModuleFileNameW failure branch. -/
def diagNoExePath : String := appName ++ (": Could not find executable path.")

/-- Diagnostic of the luaL_newstate failure branch. -/
def diagNoState : String := appName ++ (": Failed to create Lua state.")

/-- Diagnostic of the lua_pcall failure branch after invoking setPaths. -/
def diagSetPathsFail (msg : String) : String := appName ++ (": Error setting paths: ") ++ msg

/-- Diagnostic of the luaL_dofile failure branch of the on-disk variant. -/
def diagDiskError (msg : String) : String := appName ++ (": Error: ") ++ msg

/-- Diagnostic of the luaL_loadbuffer failure branch of the embedded variant. -/
def diagSyntaxErr (msg : String) : String :=
  appName ++ (": Syntax error in embedded code: ") ++ msg

/-- Diagnostic of the lua_pcall payload failure branch of the embedded variant. -/
def diagRuntimeErr (msg : String) : String := appName ++ (": Runtime error: ") ++ msg

/-- The Lua runtime error message raised when the launcher calls the global
    setPaths although the registration chunk did not define it.  The exact
    text models the Lua nil-call error and is immaterial; only its existence
    matters. -/
def nilCallMsg : String := "attempt to call a nil value (global setPaths)"

/-- Outcome of the lua_pcall that invokes setPaths: when the registration
    chunk did not run, the global is undefined and calling it necessarily
    fails with the nil-call error; otherwise the invocation result of the
    environment applies. -/
def pcallSetPathsResult (e : Env) : Option String :=
  if e.registerOk then e.invokeErr else some nilCallMsg

/-- Standard error lines produced by the bridge invocation step. -/
def setPathsDiag (e : Env) : List String :=
  match pcallSetPathsResult e with
  | some msg => [diagSetPathsFail msg]
  | none => []

/-- Outcome of luaL_dofile: the load error when loading fails, otherwise the
    outcome of running the loaded chunk. -/
def dofileResult (e : Env) : Option String :=
  match e.loadErr with
  | some msg => some msg
  | none => e.runErr

namespace Disk

/-- Models main of the on-disk variant (src/ldoc.cpp lines 63 to 135): fatal
    exits for path resolution and state creation, non fatal report for a
    bridge invocation failure, luaL_dofile of the payload with a single
    Error diagnostic and exit 1 on failure, lua_close on every path after
    state creation, exit 0 on success. -/
def main (e : Env) : Out :=
  if e.exePathOk = false then
    ⟨1, [diagNoExePath], []⟩
  else if e.newStateOk = false then
    ⟨1, [diagNoState], []⟩
  else
    match dofileResult e with
    | some msg =>
      ⟨1, setPathsDiag e ++ [diagDiskError msg],
       [Ev.createState, Ev.loadPayload]
         ++ (match e.loadErr with | none => [Ev.runPayload] | some _ => [])
         ++ [Ev.closeState]⟩
    | none =>
      ⟨0, setPathsDiag e, [Ev.createState, Ev.loadPayload, Ev.runPayload, Ev.closeState]⟩

end Disk

namespace Embedded

/-- Models main of the embedded variant (src/unnamed/part_001 lines 102 to
    175): fatal exits for path resolution and state creation, non fatal
    report for a bridge invocation failure, luaL_loadbuffer of the embedded
    chunk with a Syntax error diagnostic on failure, lua_pcall of the chunk
    with a Runtime error diagnostic on failure, lua_close at the end, and an
    unconditional return 0 after state creation. -/
def main (e : Env) : Out :=
  if e.exePathOk = false then
    ⟨1, [diagNoExePath], []⟩
  else if e.newStateOk = false then
    ⟨1, [diagNoState], []⟩
  else
    match e.loadErr with
    | none =>
      match e.runErr with
      | none =>
        ⟨0, setPathsDiag e, [Ev.createState, Ev.loadPayload, Ev.runPayload, Ev.closeState]⟩
      | some msg =>
        ⟨0, setPathsDiag e ++ [diagRuntimeErr msg],
         [Ev.createState, Ev.loadPayload, Ev.runPayload, Ev.closeState]⟩
    | some msg =>
      ⟨0, setPathsDiag e ++ [diagSyntaxErr msg],
       [Ev.createState, Ev.loadPayload, Ev.closeState]⟩

end Embedded

/-! ## Claims about the launcher body -/

/-- C1: in the embedded variant a payload execution failure still yields
    process exit status 0: the launcher prints the Runtime error diagnostic
    and then falls through to an unconditional return 0 (part_001 lines 162
    to 175), so exit status 0 does not occur only on full success.  The
    on-disk variant does exit 1 on the same failure. -/
theorem embedded_payload_failure_exit_zero :
    (Embedded.main ⟨true, true, true, none, none, some ("boom")⟩).exitCode = 0 ∧
    diagRuntimeErr ("boom")
      ∈ (Embedded.main ⟨true, true, true, none, none, some ("boom")⟩).stderrLines ∧
    (Embedded.main ⟨true, true, true, none, some ("boom"), none⟩).exitCode = 0 ∧
    (Disk.main ⟨true, true, true, none, none, some ("boom")⟩).exitCode = 1 := by
  refine ⟨rfl, ?_, rfl, rfl⟩
  simp [Embedded.main, setPathsDiag, pcallSetPathsResult]

/-- C2 counterexample: in the on-disk variant a payload compilation failure
    and a payload execution failure with the same message produce identical
    standard error output, so the two failure kinds are not reported with
    distinct labels in that variant. -/
theorem disk_same_diagnostic_for_compile_and_run_failure :
    (Disk.main ⟨true, true, true, none, some ("m"), none⟩).stderrLines
      = (Disk.main ⟨true, true, true, none, none, some ("m")⟩).stderrLines := rfl

theorem diagSyntaxErr_ne_diagRuntimeErr (m1 m2 : String) :
    diagSyntaxErr m1 ≠ diagRuntimeErr m2 := by
  intro h
  have e1 : (diagSyntaxErr m1).data.get? 10 = some ('S') := by
    rw [diagSyntaxErr, strData_append, List.get?_append (by decide)]
    decide
  have e2 : (diagRuntimeErr m2).data.get? 10 = some ('R') := by
    rw [diagRuntimeErr, strData_append, List.get?_append (by decide)]
    decide
  rw [h, e2] at e1
  exact absurd e1 (by decide)

/-- C2 amended: the embedded variant reports a compilation failure with the
    label Syntax error in embedded code and an execution failure with the
    label Runtime error, and those two diagnostic lines always differ; the
    on-disk variant reports both failure kinds with the same single label
    Error. -/
theorem payload_failure_diagnostics (m1 m2 : String) :
    (Embedded.main ⟨true, true, true, none, some m1, none⟩).stderrLines
        = [diagSyntaxErr m1] ∧
    (Embedded.main ⟨true, true, true, none, none, some m2⟩).stderrLines
        = [diagRuntimeErr m2] ∧
    diagSyntaxErr m1 ≠ diagRuntimeErr m2 ∧
    (Disk.main ⟨true, true, true, none, some m1, none⟩).stderrLines
        = [diagDiskError m1] ∧
    (Disk.main ⟨true, true, true, none, none, some m2⟩).stderrLines
        = [diagDiskError m2] :=
  ⟨rfl, rfl, diagSyntaxErr_ne_diagRuntimeErr m1 m2, rfl, rfl⟩

/-- Witness for C2 amended at concrete messages. -/
theorem payload_failure_diagnostics_witness :
    (Embedded.main ⟨true, true, true, none, some ("s"), none⟩).stderrLines
        = [diagSyntaxErr ("s")] ∧
    (Embedded.main ⟨true, true, true, none, none, some ("r")⟩).stderrLines
        = [diagRuntimeErr ("r")] ∧
    diagSyntaxErr ("s") ≠ diagRuntimeErr ("r") ∧
    (Disk.main ⟨true, true, true, none, some ("s"), none⟩).stderrLines
        = [diagDiskError ("s")] ∧
    (Disk.main ⟨true, true, true, none, none, some ("r")⟩).stderrLines
        = [diagDiskError ("r")] :=
  payload_failure_diagnostics ("s") ("r")

/-- C6: on every execution path on which the Lua state was created, both
    variants record exactly one close of the state, and it is the final
    event before process exit. -/
theorem state_closed_exactly_once (e : Env)
    (h1 : e.exePathOk = true) (h2 : e.newStateOk = true) :
    ((Disk.main e).events.count Ev.closeState) = 1 ∧
    (Disk.main e).events.getLast? = some Ev.closeState ∧
    ((Embedded.main e).events.count Ev.closeState) = 1 ∧
    (Embedded.main e).events.getLast? = some Ev.closeState := by
  obtain ⟨p, n, r, iv, le, re⟩ := e
  cases p with
  | false => simp at h1
  | true =>
    cases n with
    | false => simp at h2
    | true =>
      cases le <;> cases re <;>
        simp [Disk.main, Embedded.main, dofileResult, setPathsDiag, pcallSetPathsResult]

/-- Witness for C6 at a concrete fully successful run. -/
theorem state_closed_exactly_once_witness :
    ((Disk.main ⟨true, true, true, none, none, none⟩).events.count Ev.closeState) = 1 :=
  (state_closed_exactly_once ⟨true, true, true, none, none, none⟩ rfl rfl).1

/-- C7: a bridge invocation failure is reported on standard error and is not
    fatal: both variants still reach the payload load step, and the exit
    status equals that of the same run without the bridge failure. -/
theorem bridge_failure_soft (le re : Option String) (msg : String) :
    (Disk.main ⟨true, true, true, some msg, le, re⟩).exitCode
        = (Disk.main ⟨true, true, true, none, le, re⟩).exitCode ∧
    (Embedded.main ⟨true, true, true, some msg, le, re⟩).exitCode
        = (Embedded.main ⟨true, true, true, none, le, re⟩).exitCode ∧
    Ev.loadPayload ∈ (Disk.main ⟨true, true, true, some msg, le, re⟩).events ∧
    Ev.loadPayload ∈ (Embedded.main ⟨true, true, true, some msg, le, re⟩).events ∧
    diagSetPathsFail msg ∈ (Disk.main ⟨true, true, true, some msg, le, re⟩).stderrLines ∧
    diagSetPathsFail msg ∈ (Embedded.main ⟨true, true, true, some msg, le, re⟩).stderrLines := by
  cases le <;> cases re <;>
    simp [Disk.main, Embedded.main, dofileResult, setPathsDiag, pcallSetPathsResult]

/-- Witness for C7 at a concrete bridge failure message. -/
theorem bridge_failure_soft_witness :
    (Disk.main ⟨true, true, true, some ("oops"), none, none⟩).exitCode
        = (Disk.main ⟨true, true, true, none, none, none⟩).exitCode ∧
    (Embedded.main ⟨true, true, true, some ("oops"), none, none⟩).exitCode
        = (Embedded.main ⟨true, true, true, none, none, none⟩).exitCode ∧
    Ev.loadPayload ∈ (Disk.main ⟨true, true, true, some ("oops"), none, none⟩).events ∧
    Ev.loadPayload ∈ (Embedded.main ⟨true, true, true, some ("oops"), none, none⟩).events ∧
    diagSetPathsFail ("oops")
      ∈ (Disk.main ⟨true, true, true, some ("oops"), none, none⟩).stderrLines ∧
    diagSetPathsFail ("oops")
      ∈ (Embedded.main ⟨true, true, true, some ("oops"), none, none⟩).stderrLines :=
  bridge_failure_soft none none ("oops")

/-- C10: whenever state creation succeeded, both variants reach the payload
    load step regardless of the outcomes of bridge registration and
    invocation; a failed registration surfaces only through the invocation
    of the then undefined global, reported with the same non fatal Error
    setting paths diagnostic. -/
theorem payload_reached_regardless_of_bridge (e : Env)
    (h1 : e.exePathOk = true) (h2 : e.newStateOk = true) :
    Ev.loadPayload ∈ (Disk.main e).events ∧
    Ev.loadPayload ∈ (Embedded.main e).events ∧
    (e.registerOk = false →
      diagSetPathsFail nilCallMsg ∈ (Disk.main e).stderrLines ∧
      diagSetPathsFail nilCallMsg ∈ (Embedded.main e).stderrLines) := by
  obtain ⟨p, n, r, iv, le, re⟩ := e
  cases p with
  | false => simp at h1
  | true =>
    cases n with
    | false => simp at h2
    | true =>
      cases r <;> cases le <;> cases re <;>
        simp [Disk.main, Embedded.main, dofileResult, setPathsDiag, pcallSetPathsResult]

/-- Witness for C10 at a concrete run with failed bridge registration. -/
theorem payload_reached_regardless_of_bridge_witness :
    Ev.loadPayload ∈ (Disk.main ⟨true, true, false, none, none, none⟩).events ∧
    diagSetPathsFail nilCallMsg
      ∈ (Disk.main ⟨true, true, false, none, none, none⟩).stderrLines := by
  have h := payload_reached_regardless_of_bridge ⟨true, true, false, none, none, none⟩ rfl rfl
  exact ⟨h.1, (h.2.2 rfl).1⟩

/-! ## The standard error line format (C8) -/

/-- Modelled from the spec: the documented standard error line format, the
    executable name, a failure category and the details, joined by
    colon-space. -/
def specDiagFormat (s : String) : Prop :=
  ∃ cat det : String, s = (((appName ++ (": ")) ++ cat) ++ (": ")) ++ det

/-- C8 counterexample: the diagnostic emitted when executable path
    resolution fails is the whole standard error output of that run and has
    only two colon separated fields, hence it does not match the documented
    three field form. -/
theorem startup_diagnostic_lacks_category :
    (Disk.main ⟨false, true, true, none, none, none⟩).stderrLines = [diagNoExePath] ∧
    (Embedded.main ⟨false, true, true, none, none, none⟩).stderrLines = [diagNoExePath] ∧
    ¬ specDiagFormat diagNoExePath := by
  refine ⟨rfl, rfl, ?_⟩
  rintro ⟨cat, det, h⟩
  have h1 : ((diagNoExePath).data.count ':') = 1 := by decide
  rw [h] at h1
  simp only [strData_append, List.count_append] at h1
  have ha : ((appName).data.count ':') = 0 := by decide
  have hb : ((": " : String).data.count ':') = 1 := by decide
  rw [ha, hb] at h1
  omega

theorem mem_setPathsDiag {e : Env} {line : String} (h : line ∈ setPathsDiag e) :
    ∃ m, line = diagSetPathsFail m := by
  cases hp : pcallSetPathsResult e with
  | none => simp [setPathsDiag, hp] at h
  | some m =>
    simp only [setPathsDiag, hp, List.mem_singleton] at h
    exact ⟨m, h⟩

theorem stderr_forms (e : Env) (line : String)
    (h : line ∈ (Disk.main e).stderrLines ∨ line ∈ (Embedded.main e).stderrLines) :
    line = diagNoExePath ∨ line = diagNoState ∨
    (∃ m, line = diagSetPathsFail m) ∨ (∃ m, line = diagDiskError m) ∨
    (∃ m, line = diagSyntaxErr m) ∨ (∃ m, line = diagRuntimeErr m) := by
  by_cases hp : e.exePathOk = false
  · simp [Disk.main, Embedded.main, hp] at h
    exact Or.inl h
  · by_cases hn : e.newStateOk = false
    · simp [Disk.main, Embedded.main, hp, hn] at h
      exact Or.inr (Or.inl h)
    · cases hle : e.loadErr with
      | some m =>
        simp [Disk.main, Embedded.main, dofileResult, hp, hn, hle] at h
        rcases h with (hm | rfl) | (hm | rfl)
        · exact Or.inr (Or.inr (Or.inl (mem_setPathsDiag hm)))
        · exact Or.inr (Or.inr (Or.inr (Or.inl ⟨m, rfl⟩)))
        · exact Or.inr (Or.inr (Or.inl (mem_setPathsDiag hm)))
        · exact Or.inr (Or.inr (Or.inr (Or.inr (Or.inl ⟨m, rfl⟩))))
      | none =>
        cases hre : e.runErr with
        | some m =>
          simp [Disk.main, Embedded.main, dofileResult, hp, hn, hle, hre] at h
          rcases h with (hm | rfl) | (hm | rfl)
          · exact Or.inr (Or.inr (Or.inl (mem_setPathsDiag hm)))
          · exact Or.inr (Or.inr (Or.inr (Or.inl ⟨m, rfl⟩)))
          · exact Or.inr (Or.inr (Or.inl (mem_setPathsDiag hm)))
          · exact Or.inr (Or.inr (Or.inr (Or.inr (Or.inr ⟨m, rfl⟩))))
        | none =>
          simp [Disk.main, Embedded.main, dofileResult, hp, hn, hle, hre] at h
          exact Or.inr (Or.inr (Or.inl (mem_setPathsDiag h)))

theorem twoField_noExePath : ∃ rest, diagNoExePath = (appName ++ (": ")) ++ rest :=
  ⟨"Could not find executable path.", by decide⟩

theorem twoField_noState : ∃ rest, diagNoState = (appName ++ (": ")) ++ rest :=
  ⟨"Failed to create Lua state.", by decide⟩

theorem spf_setPaths (m : String) : specDiagFormat (diagSetPathsFail m) :=
  ⟨"Error setting paths", m, congrArg (fun s => s ++ m) (by decide)⟩

theorem spf_diskError (m : String) : specDiagFormat (diagDiskError m) :=
  ⟨"Error", m, congrArg (fun s => s ++ m) (by decide)⟩

theorem spf_syntaxErr (m : String) : specDiagFormat (diagSyntaxErr m) :=
  ⟨"Syntax error in embedded code", m, congrArg (fun s => s ++ m) (by decide)⟩

theorem spf_runtimeErr (m : String) : specDiagFormat (diagRuntimeErr m) :=
  ⟨"Runtime error", m, congrArg (fun s => s ++ m) (by decide)⟩

theorem specDiagFormat_head {s : String} (h : specDiagFormat s) :
    ∃ rest, s = (appName ++ (": ")) ++ rest := by
  obtain ⟨cat, det, rfl⟩ := h
  refine ⟨(cat ++ (": ")) ++ det, ?_⟩
  apply strExt
  simp [strData_append, List.append_assoc]

/-- C8 amended: every diagnostic line either variant writes to standard
    error starts with the executable name and colon-space; the bridge
    failure and payload failure diagnostics have the documented three field
    form, while the two startup failure diagnostics (path resolution and
    state creation) carry only the two field form of executable name and
    details. -/
theorem stderr_line_format (e : Env) (line : String)
    (h : line ∈ (Disk.main e).stderrLines ∨ line ∈ (Embedded.main e).stderrLines) :
    (∃ rest, line = (appName ++ (": ")) ++ rest) ∧
    (specDiagFormat line ∨ line = diagNoExePath ∨ line = diagNoState) := by
  rcases stderr_forms e line h with rfl | rfl | ⟨m, rfl⟩ | ⟨m, rfl⟩ | ⟨m, rfl⟩ | ⟨m, rfl⟩
  · exact ⟨twoField_noExePath, Or.inr (Or.inl rfl)⟩
  · exact ⟨twoField_noState, Or.inr (Or.inr rfl)⟩
  · exact ⟨specDiagFormat_head (spf_setPaths m), Or.inl (spf_setPaths m)⟩
  · exact ⟨specDiagFormat_head (spf_diskError m), Or.inl (spf_diskError m)⟩
  · exact ⟨specDiagFormat_head (spf_syntaxErr m), Or.inl (spf_syntaxErr m)⟩
  · exact ⟨specDiagFormat_head (spf_runtimeErr m), Or.inl (spf_runtimeErr m)⟩

/-- Witness for C8 amended at the path resolution failure line. -/
theorem stderr_line_format_witness :
    (∃ rest, diagNoExePath = (appName ++ (": ")) ++ rest) ∧
    (specDiagFormat diagNoExePath ∨ diagNoExePath = diagNoExePath ∨
      diagNoExePath = diagNoState) :=
  stderr_line_format ⟨false, true, true, none, none, none⟩ diagNoExePath
    (Or.inl (by simp [Disk.main]))

/-! ## The build-time conversion step (src/unnamed/part_000)

The CMake script reads the payload source, removes a leading interpreter
directive line with an anchored regex (two marker characters, then
non-newline characters, then a newline: without a terminating newline the
pattern cannot match), hex-encodes the cleaned bytes into a static array
with one appended zero byte, and emits the length as the array size minus
one.  Bytes are modelled as the Char codepoints of the content list. -/

/-- Models the anchored regex replacement: when the content starts with the
    two directive marker characters and holds a newline, everything up to
    and including the first newline is removed; otherwise the content is
    unchanged. -/
def stripShebang (content : List Char) : List Char :=
  if content.take 2 = ['#', '!'] ∧ '\n' ∈ content then
    (content.dropWhile (fun c => c != '\n')).drop 1
  else content

/-- The generated static array ldoc_source_bytes: the cleaned bytes followed
    by one terminating zero byte. -/
def ldoc_source_bytes (content : List Char) : List Nat :=
  (stripShebang content).map Char.toNat ++ [0]

/-- The generated length ldoc_source_size: sizeof the array minus one. -/
def ldoc_source_size (content : List Char) : Nat :=
  (ldoc_source_bytes content).length - 1

/-- The chunk the embedded variant hands to luaL_loadbuffer (part_001 line
    163): the first ldoc_source_size bytes of the array. -/
def loadbufferChunk (content : List Char) : List Nat :=
  (ldoc_source_bytes content).take (ldoc_source_size content)

theorem take_len_append {α : Type} (a b : List α) : (a ++ b).take a.length = a := by
  induction a with
  | nil => rfl
  | cons x xs ih => simp [ih]

theorem dropWhile_append_all (p : Char → Bool) (a b : List Char)
    (h : ∀ x ∈ a, p x = true) : (a ++ b).dropWhile p = b.dropWhile p := by
  induction a with
  | nil => rfl
  | cons x xs ih =>
    rw [List.cons_append, List.dropWhile_cons, if_pos (h x (List.mem_cons_self x xs))]
    exact ih (fun y hy => h y (List.mem_cons_of_mem x hy))

theorem take_two_shape {l : List Char} (h : l.take 2 = ['#', '!']) :
    ∃ t, l = '#' :: '!' :: t := by
  cases l with
  | nil => cases h
  | cons a l1 =>
    cases l1 with
    | nil => simp [List.take] at h
    | cons b l2 =>
      simp only [List.take, List.cons.injEq] at h
      exact ⟨l2, by rw [h.1, h.2.1]⟩

theorem shebang_cond_iff (content : List Char) :
    (content.take 2 = ['#', '!'] ∧ '\n' ∈ content) ↔
    ∃ line rest, content = line ++ '\n' :: rest ∧ line.take 2 = ['#', '!'] ∧
      '\n' ∉ line := by
  constructor
  · rintro ⟨h2, hn⟩
    obtain ⟨t, rfl⟩ := take_two_shape h2
    have hnt : '\n' ∈ t := by
      simp only [List.mem_cons] at hn
      rcases hn with h | h | h
      · exact absurd h (by decide)
      · exact absurd h (by decide)
      · exact h
    cases hd : t.dropWhile (fun c => c != '\n') with
    | nil =>
      exfalso
      have hsplit := List.takeWhile_append_dropWhile (p := fun c => c != '\n') (l := t)
      rw [hd, List.append_nil] at hsplit
      have hp := takeWhile_pred (fun c => c != '\n') '\n' t (by rw [hsplit]; exact hnt)
      simp at hp
    | cons d r =>
      have hdn : d = '\n' := by
        have := head_dropWhile_false (fun c => c != '\n') t d (by rw [hd]; rfl)
        simpa using this
      subst hdn
      refine ⟨'#' :: '!' :: t.takeWhile (fun c => c != '\n'), r, ?_, rfl, ?_⟩
      · have hsplit := List.takeWhile_append_dropWhile (p := fun c => c != '\n') (l := t)
        rw [hd] at hsplit
        conv_lhs => rw [← hsplit]
        simp
      · intro hmem
        simp only [List.mem_cons] at hmem
        rcases hmem with h | h | h
        · exact absurd h (by decide)
        · exact absurd h (by decide)
        · have := takeWhile_pred (fun c => c != '\n') '\n' t h
          simp at this
  · rintro ⟨line, rest, rfl, h2, hnl⟩
    obtain ⟨t, rfl⟩ := take_two_shape h2
    exact ⟨by simp [List.take], by simp⟩

theorem stripShebang_of_line (line rest : List Char) (h2 : line.take 2 = ['#', '!'])
    (hnl : '\n' ∉ line) : stripShebang (line ++ '\n' :: rest) = rest := by
  have hcond : ((line ++ '\n' :: rest).take 2 = ['#', '!'] ∧ '\n' ∈ line ++ '\n' :: rest) :=
    (shebang_cond_iff _).mpr ⟨line, rest, rfl, h2, hnl⟩
  rw [stripShebang, if_pos hcond]
  rw [dropWhile_append_all _ line _ (fun x hx => by
    have : x ≠ '\n' := fun e => hnl (e ▸ hx)
    simpa using this)]
  rw [List.dropWhile_cons, if_neg (by decide)]
  rfl

/-- C9: the conversion step emits a length equal to exactly the byte count
    of the cleaned content (the appended terminating zero byte of the array
    is not counted), the chunk handed to the runtime through the pair of
    bytes and length is byte for byte the cleaned content, and the cleaning
    removes the single leading newline terminated directive line exactly
    when such a line is present at the very start. -/
theorem conversion_step_contract (content : List Char) :
    ldoc_source_size content = (stripShebang content).length ∧
    ldoc_source_bytes content = ((stripShebang content).map Char.toNat) ++ [0] ∧
    loadbufferChunk content = (stripShebang content).map Char.toNat ∧
    (∀ line rest, content = line ++ '\n' :: rest → line.take 2 = ['#', '!'] →
      '\n' ∉ line → stripShebang content = rest) ∧
    ((¬ ∃ line rest, content = line ++ '\n' :: rest ∧ line.take 2 = ['#', '!'] ∧
      '\n' ∉ line) → stripShebang content = content) := by
  have hs : ldoc_source_size content = ((stripShebang content).map Char.toNat).length := by
    rw [ldoc_source_size, ldoc_source_bytes]
    simp
  refine ⟨?_, rfl, ?_, ?_, ?_⟩
  · rw [hs, List.length_map]
  · show ((stripShebang content).map Char.toNat ++ [0]).take (ldoc_source_size content)
        = (stripShebang content).map Char.toNat
    rw [hs]
    exact take_len_append _ _
  · intro line rest hc h2 hnl
    rw [hc]
    exact stripShebang_of_line line rest h2 hnl
  · intro hno
    rw [stripShebang, if_neg (fun hcond => hno ((shebang_cond_iff content).mp hcond))]

/-- Witness for C9 at a concrete five byte payload with a directive line. -/
theorem conversion_step_contract_witness :
    stripShebang (('#' :: '!' :: ("lua").data) ++ '\n' :: ("print").data) = ("print").data ∧
    ldoc_source_size (('#' :: '!' :: ("lua").data) ++ '\n' :: ("print").data) = 5 := by
  have h := conversion_step_contract (('#' :: '!' :: ("lua").data) ++ '\n' :: ("print").data)
  have hstrip := h.2.2.2.1 ('#' :: '!' :: ("lua").data) (("print").data) rfl
    (by decide) (by decide)
  refine ⟨hstrip, ?_⟩
  rw [h.1, hstrip]
  decide

end Ldoc
